import Mathlib

/-!
Verification of the data-preparation helpers in `src/utils.py` of the
`air_traffic_forecast` repository.

The Python functions are shallowly embedded as Lean functions:

* `_split_sequence` (the sequence windower) becomes `split_sequence`;
  its sliding-window loop becomes the structurally recursive `splitLoop`,
  consuming the index list `enumerate` iterates over.
  The function's fatal abort (`print(...); sys.exit()` on a too-short
  sequence) is modelled by returning `none`; a normal return is `some`.
* Python slices `s[a:b]`, `s[:k]`, `s[k:]` (whose indices may be negative
  and are clamped) become `pySlice`, `pySliceTo`, `pySliceFrom` built on
  the index-normalisation function `pyIdx`.
* Python indexing `xs[i]` with a possibly negative `int` index, which
  raises `IndexError` when out of range, becomes `pyGetE` returning
  `Except PyExc`.
* `train_val_split` keeps its name; its two internal partitions are
  exposed as `train_val_partition`.
* `plot_validation` keeps its name; the chart it builds is modelled as the
  three `(date, value)` series handed to the plotting collaborator
  (predicted, input, expected), and the Keras model collaborator as an
  abstract function `predict : List (List α) → List (List α)`.
  The pandas `DataFrame` constructor's failure on columns of unequal
  length is modelled as a `valueError`.
* Exceptions (`ValueError`, `SystemExit` from `sys.exit`, `IndexError`)
  become the inductive `PyExc`; the `try/except ValueError` guard at the
  top of `_split_sequence` is modelled by `lengthGuardBody` (the guarded
  block) and `lengthGuard` (the block together with its handler).

Sequence elements are an arbitrary type `α`; concrete instances use `ℕ`.
-/

/-- Exceptions relevant to `utils.py`: `ValueError` (named in the
`except` clause of `_split_sequence` and raised by pandas on unequal
column lengths), `SystemExit` (raised by `sys.exit`), and `IndexError`
(raised explicitly by `plot_validation`'s guard and by out-of-range
indexing). -/
inductive PyExc where
  | valueError : PyExc
  | systemExit : PyExc
  | indexError : PyExc
deriving DecidableEq, Repr

/-- Normalise a Python slice endpoint `k` (an arbitrary `int`) for a
sequence of length `L`: nonnegative endpoints clamp to `min k L`,
negative endpoints count from the end and clamp to `max 0 (L + k)`,
written here as `L - min (-k) L`. -/
def pyIdx (L : ℕ) (k : ℤ) : ℕ :=
  if 0 ≤ k then min k.toNat L else L - min (-k).toNat L

/-- Python slice `l[a:b]`. -/
def pySlice {α : Type*} (l : List α) (a b : ℤ) : List α :=
  (l.take (pyIdx l.length b)).drop (pyIdx l.length a)

/-- Python slice `l[:k]`. -/
def pySliceTo {α : Type*} (l : List α) (k : ℤ) : List α :=
  l.take (pyIdx l.length k)

/-- Python slice `l[k:]`. -/
def pySliceFrom {α : Type*} (l : List α) (k : ℤ) : List α :=
  l.drop (pyIdx l.length k)

/-- Python indexing `l[i]` with an `int` index: a negative index counts
from the end; an index that is still out of range raises `IndexError`. -/
def pyGetE {α : Type*} (l : List α) (i : ℤ) : Except PyExc α :=
  let j : ℤ := if i < 0 then i + l.length else i
  if 0 ≤ j then
    match l[j.toNat]? with
    | some a => .ok a
    | none => .error .indexError
  else .error .indexError

/-- The guarded block of `_split_sequence`'s length check (the body of
its `try`): `if len(sequence) < n_input + n_output: print(...); sys.exit()`.
`sys.exit()` raises `SystemExit`; falling through returns `()`. -/
def lengthGuardBody (seqLen n_input n_output : ℕ) : Except PyExc Unit :=
  if seqLen < n_input + n_output then .error .systemExit else .ok ()

/-- The length check together with its `except ValueError` handler, which
runs `sys.exit("sequence too short - aborting operation")` (again a
`SystemExit`). Any other outcome of the block propagates unchanged. -/
def lengthGuard (seqLen n_input n_output : ℕ) : Except PyExc Unit :=
  match lengthGuardBody seqLen n_input n_output with
  | .error .valueError => .error .systemExit
  | r => r

/-- Whether the `except ValueError` handler of `_split_sequence`'s length
guard runs, i.e. whether the guarded block raised a `ValueError`. -/
def guardHandlerTriggered (seqLen n_input n_output : ℕ) : Bool :=
  match lengthGuardBody seqLen n_input n_output with
  | .error .valueError => true
  | _ => false

/-- The sliding-window loop of `_split_sequence`, consuming the index
list that `for i, _ in enumerate(sequence)` iterates over:
`input_end = i + n_input`, `output_end = input_end + n_output - 1`,
breaking (returning what was accumulated so far) as soon as
`output_end > len(sequence)`, and otherwise appending
`sequence[i:input_end]` to the inputs and
`sequence[input_end - 1 : output_end]` to the outputs.
Index arithmetic is done in `ℤ` exactly as Python does it. -/
def splitLoop {α : Type*} (s : List α) (n_input n_output : ℕ) :
    List ℕ → List (List α) × List (List α)
  | [] => ([], [])
  | i :: idxs =>
    let input_end : ℤ := (i : ℤ) + n_input
    let output_end : ℤ := input_end + n_output - 1
    if output_end > (s.length : ℤ) then ([], [])
    else
      let rest := splitLoop s n_input n_output idxs
      (pySlice s i input_end :: rest.1,
       pySlice s (input_end - 1) output_end :: rest.2)

/-- `_split_sequence(sequence, n_input, n_output)`: the length guard
aborts the run (`none`) when `len(sequence) < n_input + n_output`;
otherwise the sliding-window loop runs over the indices
`0, …, len(sequence) - 1` and the pair of window lists is returned. -/
def split_sequence {α : Type*} (s : List α) (n_input n_output : ℕ) :
    Option (List (List α) × List (List α)) :=
  if s.length < n_input + n_output then none
  else some (splitLoop s n_input n_output (List.range s.length))

/-- The partition step of `train_val_split`:
`split_idx = len(data) - (n_steps_in + n_steps_out - 1) - (val_samples - 1)`
(computed in `ℤ`, as Python does), `data_train = data[:split_idx]`,
`data_valid = data[split_idx:]`. -/
def train_val_partition {α : Type*} (data : List α)
    (n_steps_in n_steps_out val_samples : ℕ) : List α × List α :=
  let n_samples : ℤ := (val_samples : ℤ) - 1
  let split_idx : ℤ :=
    (data.length : ℤ) - ((n_steps_in : ℤ) + (n_steps_out : ℤ) - 1) - n_samples
  (pySliceTo data split_idx, pySliceFrom data split_idx)

/-- `train_val_split(data, n_steps_in, n_steps_out, val_samples)`:
partition the series, then window each partition with `_split_sequence`;
if either windowing call aborts the run, the whole call aborts. -/
def train_val_split {α : Type*} (data : List α)
    (n_steps_in n_steps_out val_samples : ℕ) :
    Option (List (List α) × List (List α) × List (List α) × List (List α)) := do
  let p := train_val_partition data n_steps_in n_steps_out val_samples
  let (x_train_set, y_train_set) ← split_sequence p.1 n_steps_in n_steps_out
  let (x_valid_set, y_valid_set) ← split_sequence p.2 n_steps_in n_steps_out
  return (x_train_set, y_train_set, x_valid_set, y_valid_set)

/-- The chart built by `plot_validation`: the three `(date, value)` series
it plots, in the order they are drawn (predicted, input, expected). -/
abbrev Chart (α : Type*) := List (ℤ × α) × List (ℤ × α) × List (ℤ × α)

/-- `plot_validation(model, val_set, y_test, i)`: raise `IndexError` when
`i > len(y_test)`; otherwise take the batched forecasts
`model.predict(val_set)`, extract `forecasts[i]`, `val_set[i]`,
`y_test[i]` (Python indexing, so negative `i` counts from the end and a
still-out-of-range index raises `IndexError`), and build

* `model_output`: dates `np.arange(x_pred_len, x_pred_len + len(x_pred)) - 1`
  against the forecast values, where `x_pred_len = len(val_set[i])`;
* `model_input`: dates `range(x_pred_len)` against the input window;
* `expected`: the same shifted dates against `y_test[i]`.

pandas raises a `ValueError` when the `expected` frame's two columns have
unequal lengths, i.e. when `len(y_test[i]) ≠ len(x_pred)`. -/
def plot_validation {α : Type*} (predict : List (List α) → List (List α))
    (val_set y_test : List (List α)) (i : ℤ) : Except PyExc (Chart α) :=
  if i > (y_test.length : ℤ) then .error .indexError
  else
    let forecasts := predict val_set
    match pyGetE forecasts i with
    | .error e => .error e
    | .ok x_pred =>
      match pyGetE val_set i with
      | .error e => .error e
      | .ok vrow =>
        let x_pred_len := vrow.length
        match pyGetE y_test i with
        | .error e => .error e
        | .ok yrow =>
          let outDates :=
            (List.range x_pred.length).map fun j : ℕ => (x_pred_len : ℤ) + j - 1
          let model_output := outDates.zip x_pred
          let model_input :=
            ((List.range x_pred_len).map fun j : ℕ => (j : ℤ)).zip vrow
          if x_pred.length = yrow.length then
            .ok (model_output, model_input, outDates.zip yrow)
          else .error .valueError

/-- C6: for every sequence shorter than `n_input + n_output`,
`_split_sequence` aborts the whole run via its length guard (modelled as
`none`) instead of returning any result. -/
theorem split_sequence_too_short_aborts {α : Type*} (s : List α)
    (n_input n_output : ℕ) (h : s.length < n_input + n_output) :
    split_sequence s n_input n_output = none := by
  simp [split_sequence, h]

/-- Witness for C6 at `s = [1,2,3]`, `n_input = 3`, `n_output = 2`. -/
theorem split_sequence_too_short_aborts_witness :
    ([1, 2, 3] : List ℕ).length < 3 + 2 ∧
      split_sequence ([1, 2, 3] : List ℕ) 3 2 = none :=
  ⟨by decide, split_sequence_too_short_aborts [1, 2, 3] 3 2 (by decide)⟩

/-- C9: for every input, the guarded block of `_split_sequence`'s length
check either falls through normally or terminates via its own
`sys.exit()` call (a `SystemExit`); it never raises a `ValueError`, so
the surrounding `except ValueError` handler never triggers and the guard
behaves exactly like its unguarded body. -/
theorem guard_handler_unreachable (seqLen n_input n_output : ℕ) :
    (lengthGuardBody seqLen n_input n_output = .ok () ∨
      lengthGuardBody seqLen n_input n_output = .error .systemExit) ∧
    guardHandlerTriggered seqLen n_input n_output = false ∧
    lengthGuard seqLen n_input n_output = lengthGuardBody seqLen n_input n_output := by
  unfold lengthGuard guardHandlerTriggered lengthGuardBody
  by_cases h : seqLen < n_input + n_output <;> simp [h]

/-- A Python slice `s[a:b]` with in-range natural endpoints is a
`drop`/`take`. -/
lemma pySlice_of_le {α : Type*} (s : List α) (a b : ℕ)
    (ha : a ≤ s.length) (hb : b ≤ s.length) :
    pySlice s (a : ℤ) (b : ℤ) = (s.drop a).take (b - a) := by
  unfold pySlice pyIdx
  rw [if_pos (Int.natCast_nonneg a), if_pos (Int.natCast_nonneg b)]
  simp only [Int.toNat_natCast]
  rw [min_eq_left ha, min_eq_left hb, List.drop_take]

/-- Closed form of the sliding-window loop over the index suffix
`i, i+1, …, i+m-1`, provided that suffix reaches the end of the
sequence: exactly the start indices `j` with
`j + n_in + n_out - 1 ≤ len(s)` emit, in ascending order, and the `j`-th
window is `(s[j : j+n_in], s[j+n_in-1 : j+n_in+n_out-1])`. -/
lemma splitLoop_range' {α : Type*} (s : List α) (n_in n_out : ℕ)
    (h1 : 1 ≤ n_in) (h2 : 1 ≤ n_out) :
    ∀ (m i : ℕ), s.length ≤ i + m →
      splitLoop s n_in n_out (List.range' i m) =
        ((List.range' i (s.length + 2 - (n_in + n_out) - i)).map
            (fun j => (s.drop j).take n_in),
         (List.range' i (s.length + 2 - (n_in + n_out) - i)).map
            (fun j => (s.drop (j + n_in - 1)).take n_out)) := by
  intro m
  induction m with
  | zero =>
    intro i hi
    have hc : s.length + 2 - (n_in + n_out) - i = 0 := by omega
    simp [hc, splitLoop]
  | succ m ih =>
    intro i hi
    rw [List.range'_succ, splitLoop]
    dsimp only
    by_cases hbig : ((i : ℤ) + (n_in : ℤ) + (n_out : ℤ) - 1 > (s.length : ℤ))
    · rw [if_pos hbig]
      have hc : s.length + 2 - (n_in + n_out) - i = 0 := by omega
      simp [hc]
    · rw [if_neg hbig]
      have hc : s.length + 2 - (n_in + n_out) - i
          = (s.length + 2 - (n_in + n_out) - (i + 1)) + 1 := by omega
      rw [ih (i + 1) (by omega), hc, List.range'_succ]
      simp only [List.map_cons, Prod.mk.injEq]
      have e1 : ((i : ℤ) + (n_in : ℤ)) = ((i + n_in : ℕ) : ℤ) := by push_cast; ring
      have e2 : ((i : ℤ) + (n_in : ℤ) - 1) = ((i + n_in - 1 : ℕ) : ℤ) := by omega
      have e3 : ((i : ℤ) + (n_in : ℤ) + (n_out : ℤ) - 1)
          = ((i + n_in + n_out - 1 : ℕ) : ℤ) := by omega
      constructor
      · rw [e1, pySlice_of_le s i (i + n_in) (by omega) (by omega)]
        have h : i + n_in - i = n_in := by omega
        rw [h]
      · rw [e2, e3,
          pySlice_of_le s (i + n_in - 1) (i + n_in + n_out - 1) (by omega) (by omega)]
        have h : i + n_in + n_out - 1 - (i + n_in - 1) = n_out := by omega
        rw [h]

/-- Closed form of `_split_sequence` when the length guard passes:
`len(s) - (n_in + n_out) + 2` windows, the `j`-th being
`(s[j : j+n_in], s[j+n_in-1 : j+n_in+n_out-1])` in `drop`/`take` form. -/
lemma split_sequence_eq {α : Type*} (s : List α) (n_in n_out : ℕ)
    (h1 : 1 ≤ n_in) (h2 : 1 ≤ n_out) (hL : n_in + n_out ≤ s.length) :
    split_sequence s n_in n_out =
      some ((List.range (s.length - (n_in + n_out) + 2)).map
              (fun j => (s.drop j).take n_in),
            (List.range (s.length - (n_in + n_out) + 2)).map
              (fun j => (s.drop (j + n_in - 1)).take n_out)) := by
  unfold split_sequence
  rw [if_neg (by omega), List.range_eq_range',
    splitLoop_range' s n_in n_out h1 h2 s.length 0 (by omega)]
  have hc : s.length + 2 - (n_in + n_out) - 0 = s.length - (n_in + n_out) + 2 := by
    omega
  rw [hc, ← List.range_eq_range']

lemma getElem?_map_range {β : Type*} (f : ℕ → β) {c k : ℕ} (hk : k < c) :
    ((List.range c).map f)[k]? = some (f k) := by
  rw [List.getElem?_map, List.getElem?_range hk, Option.map_some']

/-- C1: for every sequence `s` and positive `n_input`, `n_output` with
`len(s) ≥ n_input + n_output`, `_split_sequence` emits windows in
ascending start index: there are `len(s) - (n_input + n_output) + 2` of
them, a window is emitted exactly when `k + n_input + n_output - 1` does
not exceed `len(s)`, the `k`-th input is `s[k : k+n_input]` (length
`n_input`), and the `k`-th output is
`s[k+n_input-1 : k+n_input+n_output-1]` (length `n_output`); in
particular `s = [1,2,3,4,5]`, `n_input = 3`, `n_output = 2` gives inputs
`[[1,2,3],[2,3,4]]` and outputs `[[3,4],[4,5]]`. -/
theorem split_sequence_emits_sliding_windows :
    (∀ (α : Type*) (s : List α) (n_in n_out : ℕ), 1 ≤ n_in → 1 ≤ n_out →
        n_in + n_out ≤ s.length →
        ∃ ins outs,
          split_sequence s n_in n_out = some (ins, outs) ∧
          ins.length = s.length - (n_in + n_out) + 2 ∧
          outs.length = s.length - (n_in + n_out) + 2 ∧
          (∀ k, k < ins.length ↔ k + n_in + n_out - 1 ≤ s.length) ∧
          (∀ k, k < ins.length →
            ins[k]? = some (pySlice s (k : ℤ) ((k : ℤ) + n_in)) ∧
            (pySlice s (k : ℤ) ((k : ℤ) + n_in)).length = n_in ∧
            outs[k]? =
              some (pySlice s ((k : ℤ) + n_in - 1) ((k : ℤ) + n_in + n_out - 1)) ∧
            (pySlice s ((k : ℤ) + n_in - 1) ((k : ℤ) + n_in + n_out - 1)).length
              = n_out)) ∧
    split_sequence ([1, 2, 3, 4, 5] : List ℕ) 3 2 =
      some ([[1, 2, 3], [2, 3, 4]], [[3, 4], [4, 5]]) := by
  constructor
  · intro α s n_in n_out h1 h2 hL
    refine ⟨_, _, split_sequence_eq s n_in n_out h1 h2 hL, by simp, by simp, ?_, ?_⟩
    · intro k
      simp only [List.length_map, List.length_range]
      omega
    · intro k hk
      have hk' : k < s.length - (n_in + n_out) + 2 := by simpa using hk
      have hkN : k + n_in + n_out - 1 ≤ s.length := by omega
      have e1 : ((k : ℤ) + (n_in : ℤ)) = ((k + n_in : ℕ) : ℤ) := by push_cast; ring
      have e2 : ((k : ℤ) + (n_in : ℤ) - 1) = ((k + n_in - 1 : ℕ) : ℤ) := by omega
      have e3 : ((k : ℤ) + (n_in : ℤ) + (n_out : ℤ) - 1)
          = ((k + n_in + n_out - 1 : ℕ) : ℤ) := by omega
      have hx : pySlice s (k : ℤ) ((k : ℤ) + n_in) = (s.drop k).take n_in := by
        rw [e1, pySlice_of_le s k (k + n_in) (by omega) (by omega)]
        have h : k + n_in - k = n_in := by omega
        rw [h]
      have hy : pySlice s ((k : ℤ) + n_in - 1) ((k : ℤ) + n_in + n_out - 1)
          = (s.drop (k + n_in - 1)).take n_out := by
        rw [e2, e3,
          pySlice_of_le s (k + n_in - 1) (k + n_in + n_out - 1) (by omega) (by omega)]
        have h : k + n_in + n_out - 1 - (k + n_in - 1) = n_out := by omega
        rw [h]
      refine ⟨?_, ?_, ?_, ?_⟩
      · rw [getElem?_map_range _ hk', hx]
      · rw [hx]
        simp only [List.length_take, List.length_drop]
        omega
      · rw [getElem?_map_range _ hk', hy]
      · rw [hy]
        simp only [List.length_take, List.length_drop]
        omega
  · decide

/-- Witness for C1 at the worked example `[1,2,3,4,5]`, `3`, `2`. -/
theorem split_sequence_emits_sliding_windows_witness :
    3 + 2 ≤ ([1, 2, 3, 4, 5] : List ℕ).length ∧
    (split_sequence ([1, 2, 3, 4, 5] : List ℕ) 3 2).map (fun p => p.1.length)
      = some 2 := by
  obtain ⟨ins, outs, hs, hlen, -⟩ :=
    split_sequence_emits_sliding_windows.1 ℕ [1, 2, 3, 4, 5] 3 2
      (by decide) (by decide) (by decide)
  refine ⟨by decide, ?_⟩
  rw [hs]
  simp [hlen]

/-- C4: for every sequence with `len(s) ≥ n_input + n_output` (and
positive window sizes), `_split_sequence` returns inputs and outputs of
equal length, every emitted window is a full-length contiguous slice
lying inside `s`, and the last element of `inputs[k]` equals the first
element of `outputs[k]` for every `k`. -/
theorem split_sequence_shape_and_overlap (α : Type*) (s : List α)
    (n_in n_out : ℕ) (h1 : 1 ≤ n_in) (h2 : 1 ≤ n_out)
    (hL : n_in + n_out ≤ s.length) :
    ∃ ins outs,
      split_sequence s n_in n_out = some (ins, outs) ∧
      ins.length = outs.length ∧
      ∀ k, k < ins.length →
        ins[k]? = some ((s.drop k).take n_in) ∧
        (ins.getD k []).length = n_in ∧ k + n_in ≤ s.length ∧
        outs[k]? = some ((s.drop (k + n_in - 1)).take n_out) ∧
        (outs.getD k []).length = n_out ∧ (k + n_in - 1) + n_out ≤ s.length ∧
        (ins.getD k []).getLast? = (outs.getD k []).head? := by
  refine ⟨_, _, split_sequence_eq s n_in n_out h1 h2 hL, by simp, ?_⟩
  intro k hk
  have hk' : k < s.length - (n_in + n_out) + 2 := by simpa using hk
  have hkN : k + n_in + n_out - 1 ≤ s.length := by omega
  have hins : ((List.range (s.length - (n_in + n_out) + 2)).map
      (fun j => (s.drop j).take n_in))[k]? = some ((s.drop k).take n_in) :=
    getElem?_map_range _ hk'
  have houts : ((List.range (s.length - (n_in + n_out) + 2)).map
      (fun j => (s.drop (j + n_in - 1)).take n_out))[k]?
      = some ((s.drop (k + n_in - 1)).take n_out) :=
    getElem?_map_range _ hk'
  have hinD : (((List.range (s.length - (n_in + n_out) + 2)).map
      (fun j => (s.drop j).take n_in)).getD k []) = (s.drop k).take n_in := by
    rw [List.getD_eq_getElem?_getD, hins, Option.getD_some]
  have houtD : (((List.range (s.length - (n_in + n_out) + 2)).map
      (fun j => (s.drop (j + n_in - 1)).take n_out)).getD k [])
      = (s.drop (k + n_in - 1)).take n_out := by
    rw [List.getD_eq_getElem?_getD, houts, Option.getD_some]
  have hinlen : ((s.drop k).take n_in).length = n_in := by
    simp only [List.length_take, List.length_drop]
    omega
  have houtlen : ((s.drop (k + n_in - 1)).take n_out).length = n_out := by
    simp only [List.length_take, List.length_drop]
    omega
  refine ⟨hins, by rw [hinD, hinlen], by omega, houts, by rw [houtD, houtlen],
    by omega, ?_⟩
  rw [hinD, houtD, List.getLast?_eq_getElem?, List.head?_eq_getElem?, hinlen]
  rw [List.getElem?_take, if_pos (by omega), List.getElem?_drop]
  rw [List.getElem?_take, if_pos (by omega), List.getElem?_drop]
  congr 1
  omega

/-- Witness for C4 at `[1,2,3,4,5]`, `3`, `2`. -/
theorem split_sequence_shape_and_overlap_witness :
    3 + 2 ≤ ([1, 2, 3, 4, 5] : List ℕ).length ∧
    (split_sequence ([1, 2, 3, 4, 5] : List ℕ) 3 2).map
      (fun p => (p.1.length == p.2.length)) = some true := by
  obtain ⟨ins, outs, hs, hlen, -⟩ :=
    split_sequence_shape_and_overlap ℕ [1, 2, 3, 4, 5] 3 2
      (by decide) (by decide) (by decide)
  refine ⟨by decide, ?_⟩
  rw [hs]
  simp [hlen]

/-- Counterexample to C5 as stated: for `s = [1,2,3,4,5]` with
`len(s) = 3 + 2` exactly, `_split_sequence` produces two windows, not
exactly one. -/
theorem split_sequence_exact_length_one_window_cex :
    ([1, 2, 3, 4, 5] : List ℕ).length = 3 + 2 ∧
    (split_sequence ([1, 2, 3, 4, 5] : List ℕ) 3 2).map (fun p => p.1.length)
      ≠ some 1 ∧
    (split_sequence ([1, 2, 3, 4, 5] : List ℕ) 3 2).map (fun p => p.1.length)
      = some 2 := by
  decide

/-- C5 amended: for every sequence `s` with `len(s) = n_input + n_output`
exactly (positive window sizes), `_split_sequence` produces exactly two
windows, because a window spans only `n_input + n_output - 1` points
(the input and output overlap in one point). -/
theorem split_sequence_exact_length_two_windows (α : Type*) (s : List α)
    (n_in n_out : ℕ) (h1 : 1 ≤ n_in) (h2 : 1 ≤ n_out)
    (hlen : s.length = n_in + n_out) :
    (split_sequence s n_in n_out).map (fun p => p.1.length) = some 2 ∧
    (split_sequence s n_in n_out).map (fun p => p.2.length) = some 2 := by
  rw [split_sequence_eq s n_in n_out h1 h2 (by omega)]
  simp [hlen]

/-- Witness for the amended C5 at `[1,2,3,4,5]`, `3`, `2`. -/
theorem split_sequence_exact_length_two_windows_witness :
    ([1, 2, 3, 4, 5] : List ℕ).length = 3 + 2 ∧
    (split_sequence ([1, 2, 3, 4, 5] : List ℕ) 3 2).map (fun p => p.1.length)
      = some 2 :=
  ⟨by decide,
    (split_sequence_exact_length_two_windows ℕ [1, 2, 3, 4, 5] 3 2
      (by decide) (by decide) (by decide)).1⟩

/-- Under the natural parameter bounds the split index of
`train_val_split` is nonnegative and in range, so the two partitions are
a plain `take`/`drop` at
`len(data) - (n_steps_in + n_steps_out - 1) - (val_samples - 1)`. -/
lemma train_val_partition_eq {α : Type*} (data : List α)
    (n_in n_out vs : ℕ) (h1 : 1 ≤ n_in) (h2 : 1 ≤ n_out) (h3 : 1 ≤ vs)
    (hL : (n_in + n_out - 1) + (vs - 1) ≤ data.length) :
    train_val_partition data n_in n_out vs
      = (data.take (data.length - (n_in + n_out - 1) - (vs - 1)),
         data.drop (data.length - (n_in + n_out - 1) - (vs - 1))) := by
  unfold train_val_partition pySliceTo pySliceFrom
  dsimp only
  have hidx : pyIdx data.length
      ((data.length : ℤ) - ((n_in : ℤ) + (n_out : ℤ) - 1) - ((vs : ℤ) - 1))
      = data.length - (n_in + n_out - 1) - (vs - 1) := by
    unfold pyIdx
    rw [if_pos (by omega)]
    have ht : ((data.length : ℤ) - ((n_in : ℤ) + (n_out : ℤ) - 1)
        - ((vs : ℤ) - 1)).toNat = data.length - (n_in + n_out - 1) - (vs - 1) := by
      omega
    rw [ht, min_eq_left (by omega)]
  rw [hidx]

/-- C2: `train_val_split` partitions the series at split index
`len(series) - (n_input + n_output - 1) - (val_samples - 1)`: the train
partition is everything before that index, the validation partition is
the suffix from that index onward, and the partition lengths sum to the
original length (stated under the parameter bounds that keep the split
index in `[0, len]`, where the formula's subtractions are exact). -/
theorem train_val_partition_split (α : Type*) (data : List α)
    (n_in n_out vs : ℕ) (h1 : 1 ≤ n_in) (h2 : 1 ≤ n_out) (h3 : 1 ≤ vs)
    (hL : (n_in + n_out - 1) + (vs - 1) ≤ data.length) :
    (train_val_partition data n_in n_out vs).1
        = data.take (data.length - (n_in + n_out - 1) - (vs - 1)) ∧
    (train_val_partition data n_in n_out vs).2
        = data.drop (data.length - (n_in + n_out - 1) - (vs - 1)) ∧
    (train_val_partition data n_in n_out vs).1
        ++ (train_val_partition data n_in n_out vs).2 = data ∧
    (train_val_partition data n_in n_out vs).1.length
        + (train_val_partition data n_in n_out vs).2.length = data.length := by
  rw [train_val_partition_eq data n_in n_out vs h1 h2 h3 hL]
  refine ⟨rfl, rfl, List.take_append_drop _ _, ?_⟩
  simp only [List.length_take, List.length_drop]
  omega

/-- Witness for C2 at series `[1,…,7]`, `n_input = n_output = 2`,
`val_samples = 2`. -/
theorem train_val_partition_split_witness :
    (train_val_partition ([1, 2, 3, 4, 5, 6, 7] : List ℕ) 2 2 2).1 = [1, 2, 3] ∧
    (train_val_partition ([1, 2, 3, 4, 5, 6, 7] : List ℕ) 2 2 2).2 = [4, 5, 6, 7] ∧
    (train_val_partition ([1, 2, 3, 4, 5, 6, 7] : List ℕ) 2 2 2).1.length
      + (train_val_partition ([1, 2, 3, 4, 5, 6, 7] : List ℕ) 2 2 2).2.length
      = ([1, 2, 3, 4, 5, 6, 7] : List ℕ).length := by
  obtain ⟨ht, hv, -, hl⟩ :=
    train_val_partition_split ℕ [1, 2, 3, 4, 5, 6, 7] 2 2 2
      (by decide) (by decide) (by decide) (by decide)
  exact ⟨by rw [ht]; rfl, by rw [hv]; rfl, hl⟩

/-- C3: windowing the validation partition returned by `train_val_split`
with the same `(n_input, n_output)` yields exactly `val_samples` windows,
whenever the series is long enough for the split index to be nonnegative
and the validation partition meets the windower's length precondition
(which holds exactly when `val_samples ≥ 2`). -/
theorem val_partition_window_count (α : Type*) (data : List α)
    (n_in n_out vs : ℕ) (h1 : 1 ≤ n_in) (h2 : 1 ≤ n_out) (h3 : 2 ≤ vs)
    (hL : (n_in + n_out - 1) + (vs - 1) ≤ data.length) :
    (split_sequence (train_val_partition data n_in n_out vs).2 n_in n_out).map
        (fun p => p.1.length) = some vs ∧
    (split_sequence (train_val_partition data n_in n_out vs).2 n_in n_out).map
        (fun p => p.2.length) = some vs := by
  rw [train_val_partition_eq data n_in n_out vs h1 h2 (by omega) hL]
  dsimp only
  rw [split_sequence_eq _ n_in n_out h1 h2
    (by simp only [List.length_drop]; omega)]
  simp only [Option.map_some', List.length_map, List.length_range,
    List.length_drop]
  constructor <;> (congr 1; omega)

/-- Witness for C3 at series `[1,…,7]`, `n_input = n_output = 2`,
`val_samples = 2`. -/
theorem val_partition_window_count_witness :
    (split_sequence (train_val_partition ([1, 2, 3, 4, 5, 6, 7] : List ℕ) 2 2 2).2
        2 2).map (fun p => p.1.length) = some 2 :=
  (val_partition_window_count ℕ [1, 2, 3, 4, 5, 6, 7] 2 2 2
    (by decide) (by decide) (by decide) (by decide)).1

/-- C10: for every sequence of length exactly `n_input + n_output - 1`,
`_split_sequence` aborts the run via its length guard, even though its
own loop, run on such a sequence, would emit exactly one full window
(input of length `n_input` and output of length `n_output`, overlapping
in one point, total span `n_input + n_output - 1`); consequently
`train_val_split` with `val_samples = 1` aborts, since its validation
partition has exactly that length. -/
theorem one_window_length_aborts (α : Type*) (s data : List α)
    (n_in n_out : ℕ) (h1 : 1 ≤ n_in) (h2 : 1 ≤ n_out)
    (hs : s.length = n_in + n_out - 1) (hd : n_in + n_out - 1 ≤ data.length) :
    split_sequence s n_in n_out = none ∧
    splitLoop s n_in n_out (List.range s.length)
      = ([s.take n_in], [(s.drop (n_in - 1)).take n_out]) ∧
    (s.take n_in).length = n_in ∧
    ((s.drop (n_in - 1)).take n_out).length = n_out ∧
    train_val_split data n_in n_out 1 = none := by
  have habort : split_sequence s n_in n_out = none := by
    unfold split_sequence
    rw [if_pos (by omega)]
  have hloop : splitLoop s n_in n_out (List.range s.length)
      = ([s.take n_in], [(s.drop (n_in - 1)).take n_out]) := by
    rw [List.range_eq_range',
      splitLoop_range' s n_in n_out h1 h2 s.length 0 (by omega)]
    have hc : s.length + 2 - (n_in + n_out) - 0 = 1 := by omega
    rw [hc]
    simp
  refine ⟨habort, hloop, by simp; omega, by simp; omega, ?_⟩
  have hp := train_val_partition_eq data n_in n_out 1 h1 h2 (le_refl 1) (by omega)
  have hvnone : split_sequence
      (data.drop (data.length - (n_in + n_out - 1))) n_in n_out = none := by
    unfold split_sequence
    rw [if_pos (by simp only [List.length_drop]; omega)]
  unfold train_val_split
  rw [hp]
  simp only [Nat.sub_self, Nat.sub_zero]
  cases htr : split_sequence
      (data.take (data.length - (n_in + n_out - 1))) n_in n_out with
  | none => simp [htr]
  | some q => simp [htr, hvnone]

/-- Witness for C10 at `s = [1,2,3,4]`, `data = [1,…,6]`,
`n_input = 3`, `n_output = 2`. -/
theorem one_window_length_aborts_witness :
    split_sequence ([1, 2, 3, 4] : List ℕ) 3 2 = none ∧
    splitLoop ([1, 2, 3, 4] : List ℕ) 3 2 (List.range 4)
      = ([[1, 2, 3]], [[3, 4]]) ∧
    train_val_split ([1, 2, 3, 4, 5, 6] : List ℕ) 3 2 1 = none := by
  obtain ⟨ha, hl, -, -, ht⟩ :=
    one_window_length_aborts ℕ [1, 2, 3, 4] [1, 2, 3, 4, 5, 6] 3 2
      (by decide) (by decide) (by decide) (by decide)
  exact ⟨ha, hl, ht⟩

/-- Python indexing with an in-range natural index returns the element. -/
lemma pyGetE_ofNat {α : Type*} (l : List α) (k : ℕ) (hk : k < l.length) :
    pyGetE l (k : ℤ) = .ok l[k] := by
  unfold pyGetE
  dsimp only
  rw [if_neg (not_lt.mpr (Int.natCast_nonneg k)), if_pos (Int.natCast_nonneg k),
    Int.toNat_natCast, List.getElem?_eq_getElem hk]

/-- Python indexing at or beyond the length raises `IndexError`. -/
lemma pyGetE_too_big {α : Type*} (l : List α) (i : ℤ)
    (h : (l.length : ℤ) ≤ i) : pyGetE l i = .error .indexError := by
  unfold pyGetE
  dsimp only
  rw [if_neg (not_lt.mpr (by omega : (0 : ℤ) ≤ i)), if_pos (by omega : (0 : ℤ) ≤ i),
    List.getElem?_eq_none (by omega)]

/-- Python indexing below `-len` raises `IndexError`. -/
lemma pyGetE_too_neg {α : Type*} (l : List α) (i : ℤ)
    (h : i < -(l.length : ℤ)) : pyGetE l i = .error .indexError := by
  unfold pyGetE
  dsimp only
  rw [if_pos (by omega : i < 0), if_neg (not_le.mpr (by omega))]

/-- An in-range negative Python index counts from the end. -/
lemma pyGetE_neg {α : Type*} (l : List α) (i : ℤ)
    (h1 : -(l.length : ℤ) ≤ i) (h2 : i < 0) :
    pyGetE l i = pyGetE l (i + l.length) := by
  unfold pyGetE
  dsimp only
  rw [if_pos h2, if_neg (not_lt.mpr (by omega : (0 : ℤ) ≤ i + l.length))]

lemma isOk_error_eq {β : Type*} (e : PyExc) :
    (Except.error e : Except PyExc β).isOk = false := rfl

lemma isOk_ok_eq {β : Type*} (c : β) :
    (Except.ok c : Except PyExc β).isOk = true := rfl

/-- Two lists whose elements have pointwise equal lengths (as partial
lookups) have the same length. -/
lemma length_eq_of_map_length {α : Type*} (l1 l2 : List (List α))
    (hm : ∀ k : ℕ, (l1[k]?).map List.length = (l2[k]?).map List.length) :
    l1.length = l2.length := by
  rcases lt_trichotomy l1.length l2.length with h | h | h
  · have h1 := hm l1.length
    rw [List.getElem?_eq_none (le_refl _), List.getElem?_eq_getElem h] at h1
    simp at h1
  · exact h
  · have h1 := hm l2.length
    rw [List.getElem?_eq_getElem h, List.getElem?_eq_none (le_refl _)] at h1
    simp at h1

/-- C7 amended: with Python's negative-index semantics,
`plot_validation` succeeds exactly when `sample_index` resolves, i.e.
exactly when `-len(expected_outputs) ≤ sample_index <
len(expected_outputs)` (assuming the model returns one forecast per
validation sample with lengths matching the expected outputs); it
signals `IndexError` for `sample_index ≥ len(expected_outputs)` — in
particular at `sample_index = len(expected_outputs)` — and succeeds at
`sample_index = len(expected_outputs) - 1`, but an in-range negative
`sample_index` also succeeds rather than raising. -/
theorem plot_validation_ok_iff (α : Type*)
    (predict : List (List α) → List (List α)) (val_set y_test : List (List α))
    (hv : val_set.length = y_test.length)
    (hm : ∀ k : ℕ, ((predict val_set)[k]?).map List.length
        = (y_test[k]?).map List.length) (i : ℤ) :
    (plot_validation predict val_set y_test i).isOk = true
      ↔ (-(y_test.length : ℤ) ≤ i ∧ i < (y_test.length : ℤ)) := by
  have hf : (predict val_set).length = y_test.length :=
    length_eq_of_map_length _ _ hm
  unfold plot_validation
  by_cases hg : i > (y_test.length : ℤ)
  · rw [if_pos hg, isOk_error_eq]
    simp only [Bool.false_eq_true, false_iff]
    omega
  rw [if_neg hg]
  dsimp only
  by_cases hbig : (y_test.length : ℤ) ≤ i
  · rw [pyGetE_too_big _ _ (by omega)]
    dsimp only
    rw [isOk_error_eq]
    simp only [Bool.false_eq_true, false_iff]
    omega
  by_cases hneg : i < -(y_test.length : ℤ)
  · rw [pyGetE_too_neg _ _ (by omega)]
    dsimp only
    rw [isOk_error_eq]
    simp only [Bool.false_eq_true, false_iff]
    omega
  rcases le_or_lt 0 i with hpos | hneg2
  · obtain ⟨k, rfl⟩ : ∃ k : ℕ, i = (k : ℤ) := ⟨i.toNat, by omega⟩
    have hky : k < y_test.length := by omega
    rw [pyGetE_ofNat _ k (by omega), pyGetE_ofNat _ k (by omega),
      pyGetE_ofNat _ k hky]
    dsimp only
    have hlen : ((predict val_set).get ⟨k, by omega⟩).length
        = (y_test.get ⟨k, hky⟩).length := by
      have h := hm k
      rw [List.getElem?_eq_getElem (by omega : k < (predict val_set).length),
        List.getElem?_eq_getElem hky] at h
      simpa using h
    simp only [List.get_eq_getElem] at hlen
    rw [if_pos hlen, isOk_ok_eq]
    simp only [true_iff]
    omega
  · rw [pyGetE_neg (predict val_set) i (by omega) hneg2,
      pyGetE_neg val_set i (by omega) hneg2, pyGetE_neg y_test i (by omega) hneg2]
    have e1 : ((predict val_set).length : ℤ) = (y_test.length : ℤ) := by omega
    have e2 : ((val_set.length : ℕ) : ℤ) = (y_test.length : ℤ) := by omega
    rw [e1, e2]
    obtain ⟨k, hk⟩ : ∃ k : ℕ, i + (y_test.length : ℤ) = (k : ℤ) :=
      ⟨(i + y_test.length).toNat, by omega⟩
    rw [hk]
    have hky : k < y_test.length := by omega
    rw [pyGetE_ofNat _ k (by omega), pyGetE_ofNat _ k (by omega),
      pyGetE_ofNat _ k hky]
    dsimp only
    have hlen : ((predict val_set).get ⟨k, by omega⟩).length
        = (y_test.get ⟨k, hky⟩).length := by
      have h := hm k
      rw [List.getElem?_eq_getElem (by omega : k < (predict val_set).length),
        List.getElem?_eq_getElem hky] at h
      simpa using h
    simp only [List.get_eq_getElem] at hlen
    rw [if_pos hlen, isOk_ok_eq]
    simp only [true_iff]
    omega

/-- Counterexample to C7 as stated: `sample_index = -1` lies outside
`0 ≤ sample_index < len(expected_outputs)` yet `plot_validation` raises
no error — Python's negative indexing wraps around, so the call
succeeds and plots the last sample. -/
theorem plot_validation_negative_index_cex :
    ([[3], [4]] : List (List ℕ)).length = 2 ∧
    ((-1 : ℤ) < 0) ∧
    (plot_validation (fun _ => [[(7 : ℕ)], [8]]) [[1], [2]] [[3], [4]]
      (-1)).isOk = true := by
  refine ⟨rfl, by decide, rfl⟩

/-- Witness for the amended C7: with two validation samples,
`sample_index = 2` fails and `sample_index = 1` succeeds. -/
theorem plot_validation_ok_iff_witness :
    (plot_validation (fun _ => [[(7 : ℕ)], [8]]) [[1], [2]] [[3], [4]] 2).isOk
      = false ∧
    (plot_validation (fun _ => [[(7 : ℕ)], [8]]) [[1], [2]] [[3], [4]] 1).isOk
      = true := by
  have hm : ∀ k : ℕ,
      (((fun _ => [[(7 : ℕ)], [8]]) [[1], [2]])[k]?).map List.length
        = (([[3], [4]] : List (List ℕ))[k]?).map List.length := by
    intro k
    match k with
    | 0 => rfl
    | 1 => rfl
    | n + 2 => rfl
  have h2 := plot_validation_ok_iff ℕ (fun _ => [[7], [8]]) [[1], [2]]
    [[3], [4]] rfl hm 2
  have h1 := plot_validation_ok_iff ℕ (fun _ => [[7], [8]]) [[1], [2]]
    [[3], [4]] rfl hm 1
  constructor
  · by_cases hb : (plot_validation (fun _ => [[(7 : ℕ)], [8]]) [[1], [2]]
        [[3], [4]] 2).isOk = true
    · exact absurd (h2.mp hb).2 (by decide)
    · simp only [Bool.not_eq_true] at hb
      exact hb
  · exact h1.mpr (by decide)

/-- C8 amended: in the chart built by `plot_validation`, the input
window occupies time offsets `0` through `len(input) - 1`, and the
forecast series and the expected-output series both start at time offset
`len(input window) - 1` (not `len(input window)`: the code subtracts 1
from `np.arange(x_pred_len, x_pred_len + len(x_pred))`, aligning the
first forecast point with the last input point) and run for
`len(forecast)` steps. -/
theorem plot_validation_trace_offsets (α : Type*)
    (predict : List (List α) → List (List α)) (val_set y_test : List (List α))
    (hv : val_set.length = y_test.length)
    (hm : ∀ k : ℕ, ((predict val_set)[k]?).map List.length
        = (y_test[k]?).map List.length) (i : ℕ) (hi : i < y_test.length) :
    ((plot_validation predict val_set y_test (i : ℤ)).map
        (fun c => c.1.map Prod.fst))
      = .ok ((List.range ((predict val_set).getD i []).length).map
          (fun j : ℕ => ((val_set.getD i []).length : ℤ) + j - 1)) ∧
    ((plot_validation predict val_set y_test (i : ℤ)).map
        (fun c => c.2.1.map Prod.fst))
      = .ok ((List.range (val_set.getD i []).length).map
          (fun j : ℕ => (j : ℤ))) ∧
    ((plot_validation predict val_set y_test (i : ℤ)).map
        (fun c => c.2.2.map Prod.fst))
      = .ok ((List.range ((predict val_set).getD i []).length).map
          (fun j : ℕ => ((val_set.getD i []).length : ℤ) + j - 1)) := by
  have hf : (predict val_set).length = y_test.length :=
    length_eq_of_map_length _ _ hm
  have hkp : i < (predict val_set).length := by omega
  have hkv : i < val_set.length := by omega
  have hgf : (predict val_set).getD i [] = (predict val_set)[i] := by
    rw [List.getD_eq_getElem?_getD, List.getElem?_eq_getElem hkp, Option.getD_some]
  have hgv : val_set.getD i [] = val_set[i] := by
    rw [List.getD_eq_getElem?_getD, List.getElem?_eq_getElem hkv, Option.getD_some]
  have hlen : ((predict val_set).get ⟨i, hkp⟩).length
      = (y_test.get ⟨i, hi⟩).length := by
    have h := hm i
    rw [List.getElem?_eq_getElem hkp, List.getElem?_eq_getElem hi] at h
    simpa using h
  simp only [List.get_eq_getElem] at hlen
  unfold plot_validation
  rw [if_neg (by omega)]
  dsimp only
  rw [pyGetE_ofNat _ i hkp, pyGetE_ofNat _ i hkv, pyGetE_ofNat _ i hi]
  dsimp only
  rw [if_pos hlen, hgf, hgv]
  refine ⟨?_, ?_, ?_⟩
  · simp only [Except.map]
    congr 1
    apply List.map_fst_zip
    simp
  · simp only [Except.map]
    congr 1
    apply List.map_fst_zip
    simp
  · simp only [Except.map]
    congr 1
    apply List.map_fst_zip
    simp only [List.length_map, List.length_range]
    omega

/-- Counterexample to C8 as stated: with an input window of length 3,
the first time offset of both the forecast trace and the expected trace
is `2 = len(input) - 1`, not `3 = len(input)`. -/
theorem plot_validation_offset_cex :
    ((plot_validation (fun _ => [[(1 : ℕ), 2]]) [[5, 6, 7]] [[8, 9]] 0).map
        (fun c => c.1.head?.map Prod.fst)) = .ok (some 2) ∧
    ((plot_validation (fun _ => [[(1 : ℕ), 2]]) [[5, 6, 7]] [[8, 9]] 0).map
        (fun c => c.2.2.head?.map Prod.fst)) = .ok (some 2) ∧
    (([[5, 6, 7]] : List (List ℕ)).getD 0 []).length = 3 ∧
    (2 : ℤ) ≠ (3 : ℤ) := by
  refine ⟨rfl, rfl, rfl, by decide⟩

/-- Witness for the amended C8: input window of length 3, forecast of
length 2; forecast and expected dates are `[2, 3]`, input dates
`[0, 1, 2]`. -/
theorem plot_validation_trace_offsets_witness :
    ((plot_validation (fun _ => [[(1 : ℕ), 2]]) [[5, 6, 7]] [[8, 9]] 0).map
        (fun c => c.1.map Prod.fst)) = .ok [2, 3] ∧
    ((plot_validation (fun _ => [[(1 : ℕ), 2]]) [[5, 6, 7]] [[8, 9]] 0).map
        (fun c => c.2.1.map Prod.fst)) = .ok [0, 1, 2] ∧
    ((plot_validation (fun _ => [[(1 : ℕ), 2]]) [[5, 6, 7]] [[8, 9]] 0).map
        (fun c => c.2.2.map Prod.fst)) = .ok [2, 3] := by
  have hm : ∀ k : ℕ,
      (((fun _ => [[(1 : ℕ), 2]]) [[5, 6, 7]])[k]?).map List.length
        = (([[8, 9]] : List (List ℕ))[k]?).map List.length := by
    intro k
    match k with
    | 0 => rfl
    | n + 1 => rfl
  obtain ⟨h1, h2, h3⟩ := plot_validation_trace_offsets ℕ (fun _ => [[1, 2]])
    [[5, 6, 7]] [[8, 9]] rfl hm 0 (by decide)
  exact ⟨h1.trans (by rfl), h2.trans (by rfl), h3.trans (by rfl)⟩
